import Mathlib

/-!
Verification of the kauldron training-loop driver (`kauldron/train/train_lib.py`).

The loop driver `train_impl` and the step enumerator `_enum_steps_with_hooks`
are embedded as pure Lean functions producing an explicit trace of the
side-effecting operations (checkpoint save, evaluator dispatch, batch fetch,
step execution, timer update, metric writes, hooks, sentinel file, sync
barrier), each tagged with the transfer-guard policy in force when it runs.

Collaborator components that live outside the provided sources
(`PerformanceTimer`, `CheckpointState`, `TrainStep`, the checkpointer, the
metric writer, `utils.enum_iter`) are modelled from the specification's
contracts; each such definition carries a doc comment saying so.
-/

set_option maxHeartbeats 1000000

namespace Kauldron

/-- Transfer-guard policy in force when a side effect executes, mirroring
jax.transfer_guard: "disallow" inside the loop body (from `_transfer_guard`),
"allow" for the explicit final sync (`_sync`), "standard" elsewhere. -/
inductive Guard
  | disallow
  | allow
  | standard
deriving DecidableEq

/-- Modelled from the spec: TrainState is an opaque bundle containing a
monotonically increasing step counter, mutated only by TrainStep.step/init. -/
structure TrainState where
  step : Nat
deriving DecidableEq

/-- Modelled from the spec: the Timer holds the initial step number and is
mutated once per step by finish_step (`kauldron/train/timer.py` is not in
the provided sources). We track the initial step number and the count of
finished steps. -/
structure PerformanceTimer where
  initialStepNum : Nat
  finishedSteps : Nat
deriving DecidableEq

/-- Modelled from the spec: CheckpointState is the composite serializable
snapshot of TrainState, Timer and the dataset-iterator position
(`kauldron/train/checkpoint_state.py` is not in the provided sources). -/
structure CheckpointState where
  state : TrainState
  timer : PerformanceTimer
  iterCursor : Nat
deriving DecidableEq

/-- Modelled from the spec: Auxiliaries is the transient per-step output of
TrainStep.step; we keep only the checkify error flag the driver inspects. -/
structure Auxiliaries where
  errored : Bool
deriving DecidableEq

/-- One side-effecting operation performed by the driver, in the order the
Python code performs them. Per-step events carry the loop index `i`. -/
inductive Event
  | ckptSave (step : Nat) (saved : CheckpointState)
  | evalDispatch (evalIdx step : Nat)
  | batchFetch (step batch : Nat)
  | devicePut (step : Nat)
  | stepExec (step : Nat)
  | timerFinish (step : Nat)
  | writeStepMetrics (step : Nat) (logSummaries : Bool)
  | hookCall (step : Nat)
  | restoreCkpt (restored : Bool)
  | writeConfig
  | writeParamOverview (step : Nat)
  | writeElementSpec (step : Nat)
  | writeContextStructure (step : Nat)
  | sentinelTouch
  | syncBarrier
deriving DecidableEq

/-- A trace entry: the transfer-guard policy in force, and the event. -/
abbrev TEvent := Guard × Event

/-- The trainer configuration fields `train_impl` and
`_enum_steps_with_hooks` read, plus the external-collaborator behaviors
they invoke, abstracted as functions: `errorAt i` says whether the step
execution reports a checkify error at loop index `i`; `shouldSave` is the
checkpointer's save policy; `batchAt c` is the batch the dataset iterator
yields when its cursor is `c`. -/
structure Trainer where
  numTrainSteps : Option Nat
  stopAfterSteps : Option Nat
  logSummariesEvery : Nat
  logMetricsEvery : Nat
  checkifyErrorCategories : Bool
  errorAt : Nat → Bool
  shouldSave : Nat → Bool
  workdirExists : Bool
  isLeadHost : Bool
  numEvals : Nat
  disableJit : Bool
  batchAt : Nat → Nat

/-- Models `_transfer_guard`: the loop body runs with the "disallow"
transfer-guard policy unless `jax_disable_jit` is set, in which case the
guard is not installed and the standard policy remains. -/
def loopGuard (t : Trainer) : Guard :=
  if t.disableJit then Guard.standard else Guard.disallow

/-- A one-element list guarded by a condition (an event that fires iff its
condition holds). -/
def optList (b : Bool) (e : TEvent) : List TEvent :=
  if b then [e] else []

/-- Result of one iteration of the loop body. -/
structure StepOut where
  events : List TEvent
  state : TrainState
  timer : PerformanceTimer
  cursor : Nat
  aux : Auxiliaries
  raised : Bool

/-- The body of the training loop for index `i` (train_lib.py lines 94-137):
conditional checkpoint save, evaluator dispatch, batch fetch, device put,
step execution, timer finish, checkify throw check, conditional metric
write, then the per-step hooks run by the enumerator. When the checkify
throw fires, the metric write and hooks do not run. -/
def stepBody (t : Trainer) (i : Nat) (st : TrainState) (tm : PerformanceTimer)
    (cur : Nat) : StepOut :=
  let g := loopGuard t
  let logSummaries : Bool := i % t.logSummariesEvery == 0
  let logMetrics : Bool := i % t.logMetricsEvery == 0
  let logAny := logMetrics || logSummaries
  let aux : Auxiliaries := ⟨t.errorAt i⟩
  let raised := t.checkifyErrorCategories && aux.errored
  { events :=
      optList (t.shouldSave i) (g, Event.ckptSave i ⟨st, tm, cur⟩)
      ++ (List.range t.numEvals).map (fun k => (g, Event.evalDispatch k i))
      ++ [(g, Event.batchFetch i (t.batchAt cur)),
          (g, Event.devicePut i),
          (g, Event.stepExec i),
          (g, Event.timerFinish i)]
      ++ optList (!raised && (logAny && t.isLeadHost))
          (g, Event.writeStepMetrics i logSummaries)
      ++ optList (!raised && t.isLeadHost) (g, Event.hookCall i)
    state := ⟨st.step + 1⟩
    timer := ⟨tm.initialStepNum, tm.finishedSteps + 1⟩
    cursor := cur + 1
    aux := aux
    raised := raised }

/-- Result of running the loop over a list of step indices. -/
structure RunOut where
  events : List TEvent
  state : TrainState
  timer : PerformanceTimer
  cursor : Nat
  aux : Option Auxiliaries
  raisedAt : Option Nat

/-- Runs the loop body over the given step indices, threading state, timer,
dataset cursor and last Auxiliaries; stops (abandoning the remaining steps,
the metric write and the hooks of the raising step) when the checkify throw
fires. -/
def runSteps (t : Trainer) :
    List Nat → TrainState → PerformanceTimer → Nat → Option Auxiliaries → RunOut
  | [], st, tm, cur, aux => ⟨[], st, tm, cur, aux, none⟩
  | i :: rest, st, tm, cur, _ =>
    let o := stepBody t i st tm cur
    if o.raised then
      ⟨o.events, o.state, o.timer, o.cursor, some o.aux, some i⟩
    else
      let r := runSteps t rest o.state o.timer o.cursor (some o.aux)
      ⟨o.events ++ r.events, r.state, r.timer, r.cursor, r.aux, r.raisedAt⟩

/-- Fuel-driven enumeration worker: counts `fuel` more indices up from `s`. -/
def enumIterGo : Nat → Nat → List Nat
  | 0, _ => []
  | fuel + 1, s => s :: enumIterGo fuel (s + 1)

/-- Modelled from the spec: `utils.enum_iter` (in `kauldron/utils/utils.py`,
not among the provided sources) yields consecutive step indices starting at
`initStep` while below `totalSteps`. -/
def enum_iter (initStep totalSteps : Nat) : List Nat :=
  enumIterGo (totalSteps - initStep) initStep

/-- The total-step computation of `_enum_steps_with_hooks` (lines 186-188):
num_train_steps + 1, clipped by stop_after_steps when that is set. -/
def totalStepsOf (numTrainSteps : Nat) (stopAfterSteps : Option Nat) : Nat :=
  match stopAfterSteps with
  | none => numTrainSteps + 1
  | some s => min (numTrainSteps + 1) s

/-- The initial step of `train_impl` (line 56): 0 when no checkpoint exists,
otherwise the checkpointer's latest step. -/
def initialStepOf (latest : Option (Nat × CheckpointState)) : Nat :=
  match latest with
  | none => 0
  | some (k, _) => k

/-- The list of loop indices `train_impl` executes (empty when
num_train_steps is undefined, in which case the enumerator raises instead). -/
def stepsOf (t : Trainer) (latest : Option (Nat × CheckpointState)) : List Nat :=
  match t.numTrainSteps with
  | none => []
  | some n => enum_iter (initialStepOf latest) (totalStepsOf n t.stopAfterSteps)

/-- How a `train_impl` invocation ends: normal return of the final state and
last Auxiliaries, the ValueError for an undefined num_train_steps, or the
checkify throw at a step. -/
inductive Outcome
  | ok (state : TrainState) (aux : Option Auxiliaries)
  | configError
  | checkifyError (step : Nat)
deriving DecidableEq

/-- A full run: the ordered trace of side effects and the outcome. -/
structure RunResult where
  trace : List TEvent
  outcome : Outcome
deriving DecidableEq

/-- The pre-loop side effects of `train_impl` (lines 71-80): the
ckpt.restore call, then - when the initial step is 0 - the four fresh-start
writer calls. These happen before the step enumerator runs its body, hence
before the num_train_steps check. -/
def preLoopEvents (latest : Option (Nat × CheckpointState)) : List TEvent :=
  [(Guard.standard, Event.restoreCkpt latest.isSome)]
  ++ (if initialStepOf latest == 0 then
        [(Guard.standard, Event.writeConfig),
         (Guard.standard, Event.writeParamOverview 0),
         (Guard.standard, Event.writeElementSpec 0),
         (Guard.standard, Event.writeContextStructure 0)]
      else [])

/-- Models ckpt.restore with noop_if_missing (line 71): the freshly
initialized TrainState, Timer and iterator are replaced by the checkpoint's
contents when one exists, and returned unchanged otherwise. -/
def restoredTriple (latest : Option (Nat × CheckpointState)) (initialStep : Nat) :
    TrainState × PerformanceTimer × Nat :=
  match latest with
  | none => (⟨0⟩, ⟨initialStep, 0⟩, 0)
  | some (_, cs) => (cs.state, cs.timer, cs.iterCursor)

/-- The training-loop driver `train_impl` (lines 43-149). `latest` is the
checkpointer's latest checkpoint (step and stored CheckpointState), none on
a fresh run. The num_train_steps check sits inside the generator
`_enum_steps_with_hooks`, whose body only runs when the for loop requests
its first item - after the restore and the fresh-start writes. On normal
loop exit the sentinel file is touched (when the workdir exists) and the
sync barrier runs under the relaxed transfer guard. -/
def train_impl (t : Trainer) (latest : Option (Nat × CheckpointState)) :
    RunResult :=
  let initialStep := initialStepOf latest
  let triple := restoredTriple latest initialStep
  let pre := preLoopEvents latest
  match t.numTrainSteps with
  | none => ⟨pre, Outcome.configError⟩
  | some n =>
    let r := runSteps t (enum_iter initialStep (totalStepsOf n t.stopAfterSteps))
      triple.1 triple.2.1 triple.2.2 none
    match r.raisedAt with
    | some k => ⟨pre ++ r.events, Outcome.checkifyError k⟩
    | none =>
      ⟨pre ++ r.events
        ++ (if t.workdirExists then [(Guard.standard, Event.sentinelTouch)] else [])
        ++ [(Guard.allow, Event.syncBarrier)],
       Outcome.ok r.state r.aux⟩

/-- The loop index a per-step event belongs to (none for the global events). -/
def eventStep : Event → Option Nat
  | Event.ckptSave i _ => some i
  | Event.evalDispatch _ i => some i
  | Event.batchFetch i _ => some i
  | Event.devicePut i => some i
  | Event.stepExec i => some i
  | Event.timerFinish i => some i
  | Event.writeStepMetrics i _ => some i
  | Event.hookCall i => some i
  | _ => none

/-- Position of a per-step event in the loop body's fixed order:
(a) checkpoint save, (b) evaluator dispatch, (c) batch fetch (then device
put), (d) step execution, (e) timer update, (f) metric write, (g) hooks. -/
def eventRank : Event → Nat
  | Event.ckptSave _ _ => 0
  | Event.evalDispatch _ _ => 1
  | Event.batchFetch _ _ => 2
  | Event.devicePut _ => 3
  | Event.stepExec _ => 4
  | Event.timerFinish _ => 5
  | Event.writeStepMetrics _ _ => 6
  | Event.hookCall _ => 7
  | _ => 8

/-- Whether an event is a checkpoint save. -/
def isCkptSave : Event → Bool
  | Event.ckptSave _ _ => true
  | _ => false

/-- Whether an event is the metric write for step `i`. -/
def isMetricsFor (i : Nat) : Event → Bool
  | Event.writeStepMetrics j _ => j == i
  | _ => false

/-- The batch fetched at loop index `j` in a trace, if any. -/
def fetchedBatch (tr : List TEvent) (j : Nat) : Option Nat :=
  tr.findSome? (fun ge => match ge.2 with
    | Event.batchFetch i b => if i == j then some b else none
    | _ => none)

/-- Ordering of trace entries by their position in the loop body's fixed
order of side effects. -/
def rankLE (x y : TEvent) : Prop := eventRank x.2 ≤ eventRank y.2

/-- Whether an event is a write_step_metrics call (for any step). -/
def isWriteStepMetricsEv : Event → Bool
  | Event.writeStepMetrics _ _ => true
  | _ => false

/-- Whether a trace contains the metric write for step `i`. -/
def hasMetricsFor (tr : List TEvent) (i : Nat) : Bool :=
  tr.any (fun ge => isMetricsFor i ge.2)

/-- Whether a trace contains the sentinel TRAIN_COMPLETE touch. -/
def hasSentinel (tr : List TEvent) : Bool :=
  tr.any (fun ge => ge.2 == Event.sentinelTouch)

/-- Whether a trace contains the write_config fresh-start call. -/
def hasWriteConfig (tr : List TEvent) : Bool :=
  tr.any (fun ge => ge.2 == Event.writeConfig)

/-- An event the driver must not have performed when it fails with the
num_train_steps configuration error: a checkpoint save, the completion
sentinel, or a step-metrics write. -/
def forbiddenOnConfigFailure (ge : TEvent) : Bool :=
  isCkptSave ge.2 || ge.2 == Event.sentinelTouch || isWriteStepMetricsEv ge.2

/-- Transfer-guard invariant for one trace entry: loop-body (per-step)
events run under the disallow policy, and the allow policy appears only on
the sync barrier. -/
def guardInvariant (ge : TEvent) : Bool :=
  (match eventStep ge.2 with
   | some _ => ge.1 == Guard.disallow
   | none => true) &&
  (!(ge.1 == Guard.allow) || ge.2 == Event.syncBarrier)

/-- A concrete trainer configuration used by witnesses: 4 declared train
steps, no early stop, a save at step 2, metrics every step, summaries every
other step, one evaluator, lead host, workdir present, checkify off. -/
def sampleTrainer : Trainer :=
  { numTrainSteps := some 3
    stopAfterSteps := none
    logSummariesEvery := 2
    logMetricsEvery := 1
    checkifyErrorCategories := false
    errorAt := fun _ => false
    shouldSave := fun i => i == 2
    workdirExists := true
    isLeadHost := true
    numEvals := 1
    disableJit := false
    batchAt := fun c => 100 + c }

/-- A trainer whose metrics cadence is 2 but whose summaries cadence is 1,
for probing the logging-cadence claim at an odd step. -/
def cadenceTrainer : Trainer :=
  { sampleTrainer with
    numTrainSteps := some 2
    logSummariesEvery := 1
    logMetricsEvery := 2
    shouldSave := fun _ => false
    numEvals := 0 }

/-- A trainer with checkify error tracking enabled and a categorized error
reported by the step execution at step 5. -/
def checkifyTrainer : Trainer :=
  { sampleTrainer with
    numTrainSteps := some 10
    checkifyErrorCategories := true
    errorAt := fun i => i == 5
    logSummariesEvery := 1
    shouldSave := fun _ => false
    numEvals := 0 }

/-- A trainer stopped early by stop_after_steps = 3 before its
num_train_steps = 10. -/
def earlyStopTrainer : Trainer :=
  { sampleTrainer with
    numTrainSteps := some 10
    stopAfterSteps := some 3
    shouldSave := fun _ => false
    numEvals := 0 }

/-- A trainer running with jax_disable_jit set, so `_transfer_guard`
installs no guard. -/
def disableJitTrainer : Trainer :=
  { sampleTrainer with
    numTrainSteps := some 1
    disableJit := true
    shouldSave := fun _ => false
    numEvals := 0 }

/-- A trainer with an undefined num_train_steps. -/
def noStepsTrainer : Trainer :=
  { sampleTrainer with numTrainSteps := none }

/-- A checkpoint state as saved at step 0 of a fresh run. -/
def ckptAtZero : CheckpointState :=
  { state := ⟨0⟩, timer := ⟨0, 0⟩, iterCursor := 0 }

lemma enum_iter_unfold (a b : Nat) :
    enum_iter a b = if a < b then a :: enum_iter (a + 1) b else [] := by
  unfold enum_iter
  by_cases h : a < b
  · rw [if_pos h]
    have hd : b - a = (b - (a + 1)) + 1 := by omega
    rw [hd]
    rfl
  · rw [if_neg h]
    have hd : b - a = 0 := by omega
    rw [hd]
    rfl

lemma mem_optList {b : Bool} {e x : TEvent} :
    x ∈ optList b e ↔ b = true ∧ x = e := by
  unfold optList
  split <;> simp_all

lemma stepBody_events_step {t : Trainer} {i : Nat} {st : TrainState}
    {tm : PerformanceTimer} {cur : Nat} :
    ∀ ge ∈ (stepBody t i st tm cur).events, eventStep ge.2 = some i := by
  intro ge hge
  simp only [stepBody, List.mem_append, mem_optList, List.mem_map,
    List.mem_range, List.mem_cons, List.not_mem_nil, or_false] at hge
  rcases hge with ((((⟨_, rfl⟩ | ⟨k, _, rfl⟩) | (rfl | rfl | rfl | rfl)) |
    ⟨_, rfl⟩) | ⟨_, rfl⟩) <;> rfl

lemma runSteps_cons_raised {t : Trainer} {i : Nat} {rest : List Nat}
    {st : TrainState} {tm : PerformanceTimer} {cur : Nat}
    {a : Option Auxiliaries} (h : (stepBody t i st tm cur).raised = true) :
    runSteps t (i :: rest) st tm cur a =
      ⟨(stepBody t i st tm cur).events, (stepBody t i st tm cur).state,
       (stepBody t i st tm cur).timer, (stepBody t i st tm cur).cursor,
       some (stepBody t i st tm cur).aux, some i⟩ := by
  simp [runSteps, h]

lemma runSteps_cons_ok {t : Trainer} {i : Nat} {rest : List Nat}
    {st : TrainState} {tm : PerformanceTimer} {cur : Nat}
    {a : Option Auxiliaries} (h : (stepBody t i st tm cur).raised = false) :
    runSteps t (i :: rest) st tm cur a =
      ⟨(stepBody t i st tm cur).events ++
         (runSteps t rest (stepBody t i st tm cur).state
           (stepBody t i st tm cur).timer (stepBody t i st tm cur).cursor
           (some (stepBody t i st tm cur).aux)).events,
       (runSteps t rest (stepBody t i st tm cur).state
         (stepBody t i st tm cur).timer (stepBody t i st tm cur).cursor
         (some (stepBody t i st tm cur).aux)).state,
       (runSteps t rest (stepBody t i st tm cur).state
         (stepBody t i st tm cur).timer (stepBody t i st tm cur).cursor
         (some (stepBody t i st tm cur).aux)).timer,
       (runSteps t rest (stepBody t i st tm cur).state
         (stepBody t i st tm cur).timer (stepBody t i st tm cur).cursor
         (some (stepBody t i st tm cur).aux)).cursor,
       (runSteps t rest (stepBody t i st tm cur).state
         (stepBody t i st tm cur).timer (stepBody t i st tm cur).cursor
         (some (stepBody t i st tm cur).aux)).aux,
       (runSteps t rest (stepBody t i st tm cur).state
         (stepBody t i st tm cur).timer (stepBody t i st tm cur).cursor
         (some (stepBody t i st tm cur).aux)).raisedAt⟩ := by
  simp [runSteps, h]

lemma pairwise_rankLE_of_const {l : List TEvent} (r : Nat)
    (h : ∀ x ∈ l, eventRank x.2 = r) : List.Pairwise rankLE l := by
  induction l with
  | nil => exact List.Pairwise.nil
  | cons a tl ih =>
    refine List.Pairwise.cons (fun y hy => ?_) (ih (fun x hx => h x (by simp [hx])))
    have ha := h a (by simp)
    have hy' := h y (by simp [hy])
    simp [rankLE, ha, hy']

lemma pairwise_rankLE_append_le {l1 l2 : List TEvent} (r : Nat)
    (h1 : List.Pairwise rankLE l1) (h2 : List.Pairwise rankLE l2)
    (hb1 : ∀ x ∈ l1, eventRank x.2 ≤ r) (hb2 : ∀ y ∈ l2, r ≤ eventRank y.2) :
    List.Pairwise rankLE (l1 ++ l2) :=
  List.pairwise_append.2
    ⟨h1, h2, fun a ha b hb => le_trans (hb1 a ha) (hb2 b hb)⟩

lemma rank_of_mem_optList {b : Bool} {g : Guard} {e : Event} {x : TEvent}
    (h : x ∈ optList b (g, e)) : eventRank x.2 = eventRank e := by
  rw [mem_optList] at h
  rw [h.2]

lemma stepBody_events_pairwise {t : Trainer} {i : Nat} {st : TrainState}
    {tm : PerformanceTimer} {cur : Nat} :
    List.Pairwise rankLE (stepBody t i st tm cur).events := by
  show List.Pairwise rankLE
    (optList (t.shouldSave i) (loopGuard t, Event.ckptSave i ⟨st, tm, cur⟩)
      ++ (List.range t.numEvals).map (fun k => (loopGuard t, Event.evalDispatch k i))
      ++ _ ++ _ ++ _)
  have pA : List.Pairwise rankLE
      (optList (t.shouldSave i) (loopGuard t, Event.ckptSave i ⟨st, tm, cur⟩)) :=
    pairwise_rankLE_of_const 0 (fun x hx => rank_of_mem_optList hx)
  have pB : List.Pairwise rankLE
      ((List.range t.numEvals).map (fun k => (loopGuard t, Event.evalDispatch k i))) := by
    refine pairwise_rankLE_of_const 1 ?_
    intro x hx
    simp only [List.mem_map, List.mem_range] at hx
    obtain ⟨k, _, rfl⟩ := hx
    rfl
  have bB : ∀ x ∈ (List.range t.numEvals).map
      (fun k => (loopGuard t, Event.evalDispatch k i)), eventRank x.2 = 1 := by
    intro x hx
    simp only [List.mem_map, List.mem_range] at hx
    obtain ⟨k, _, rfl⟩ := hx
    rfl
  refine pairwise_rankLE_append_le 7 ?_ ?_ ?_ ?_
  case refine_2 =>
    exact pairwise_rankLE_of_const 7 (fun x hx => rank_of_mem_optList hx)
  case refine_4 =>
    intro y hy
    rw [rank_of_mem_optList hy]
    simp [eventRank]
  case refine_3 =>
    intro x hx
    simp only [List.mem_append] at hx
    rcases hx with ((hx | hx) | hx) | hx
    · rw [rank_of_mem_optList hx]; exact Nat.zero_le 7
    · rw [bB x hx]; omega
    · simp only [List.mem_cons, List.not_mem_nil, or_false] at hx
      rcases hx with rfl | rfl | rfl | rfl
      · exact by simp [eventRank]
      · exact by simp [eventRank]
      · exact by simp [eventRank]
      · exact by simp [eventRank]
    · rw [rank_of_mem_optList hx]; exact by simp [eventRank]
  refine pairwise_rankLE_append_le 6 ?_ ?_ ?_ ?_
  case refine_2 =>
    exact pairwise_rankLE_of_const 6 (fun x hx => rank_of_mem_optList hx)
  case refine_4 =>
    intro y hy
    rw [rank_of_mem_optList hy]
    simp [eventRank]
  case refine_3 =>
    intro x hx
    simp only [List.mem_append] at hx
    rcases hx with (hx | hx) | hx
    · rw [rank_of_mem_optList hx]; exact Nat.zero_le 6
    · rw [bB x hx]; omega
    · simp only [List.mem_cons, List.not_mem_nil, or_false] at hx
      rcases hx with rfl | rfl | rfl | rfl
      · exact by simp [eventRank]
      · exact by simp [eventRank]
      · exact by simp [eventRank]
      · exact by simp [eventRank]
  refine pairwise_rankLE_append_le 2 ?_ ?_ ?_ ?_
  case refine_2 =>
    simp [List.pairwise_cons, rankLE, eventRank]
  case refine_4 =>
    intro y hy
    simp only [List.mem_cons, List.not_mem_nil, or_false] at hy
    rcases hy with rfl | rfl | rfl | rfl
    · exact by simp [eventRank]
    · exact by simp [eventRank]
    · exact by simp [eventRank]
    · exact by simp [eventRank]
  case refine_3 =>
    intro x hx
    simp only [List.mem_append] at hx
    rcases hx with hx | hx
    · rw [rank_of_mem_optList hx]; exact Nat.zero_le 2
    · rw [bB x hx]; omega
  exact pairwise_rankLE_append_le 1 pA pB
    (fun x hx => by rw [rank_of_mem_optList hx]; exact Nat.zero_le 1)
    (fun y hy => by rw [bB y hy])

lemma runSteps_events_step {t : Trainer} :
    ∀ (steps : List Nat) (st : TrainState) (tm : PerformanceTimer) (cur : Nat)
      (a : Option Auxiliaries),
      ∀ ge ∈ (runSteps t steps st tm cur a).events,
        ∃ i ∈ steps, eventStep ge.2 = some i := by
  intro steps
  induction steps with
  | nil => intro st tm cur a ge hge; simp [runSteps] at hge
  | cons j rest ih =>
    intro st tm cur a ge hge
    cases hr : (stepBody t j st tm cur).raised
    · rw [runSteps_cons_ok hr] at hge
      simp only [List.mem_append] at hge
      rcases hge with hge | hge
      · exact ⟨j, by simp, stepBody_events_step ge hge⟩
      · obtain ⟨i, hi, hs⟩ := ih _ _ _ _ ge hge
        exact ⟨i, by simp [hi], hs⟩
    · rw [runSteps_cons_raised hr] at hge
      exact ⟨j, by simp, stepBody_events_step ge hge⟩

lemma runSteps_filter_step_pairwise {t : Trainer} (i : Nat) :
    ∀ (steps : List Nat), steps.Nodup → ∀ (st : TrainState)
      (tm : PerformanceTimer) (cur : Nat) (a : Option Auxiliaries),
      List.Pairwise rankLE
        ((runSteps t steps st tm cur a).events.filter
          (fun ge => eventStep ge.2 == some i)) := by
  intro steps
  induction steps with
  | nil => intro _ st tm cur a; simp [runSteps]
  | cons j rest ih =>
    intro hnd st tm cur a
    have hbody : List.Pairwise rankLE
        ((stepBody t j st tm cur).events.filter
          (fun ge => eventStep ge.2 == some i)) :=
      List.Pairwise.sublist (List.filter_sublist _) stepBody_events_pairwise
    cases hr : (stepBody t j st tm cur).raised
    case true =>
      rw [runSteps_cons_raised hr]
      exact hbody
    case false =>
      rw [runSteps_cons_ok hr]
      show List.Pairwise rankLE (List.filter _ (_ ++ _))
      rw [List.filter_append]
      rcases List.nodup_cons.1 hnd with ⟨hj, hrest⟩
      by_cases hji : j = i
      · subst hji
        have hnil : (List.filter (fun ge => eventStep ge.2 == some j)
            (runSteps t rest (stepBody t j st tm cur).state
              (stepBody t j st tm cur).timer (stepBody t j st tm cur).cursor
              (some (stepBody t j st tm cur).aux)).events) = [] := by
          rw [List.filter_eq_nil_iff]
          intro ge hge
          obtain ⟨k, hk, hs⟩ := runSteps_events_step _ _ _ _ _ ge hge
          simp only [hs, beq_iff_eq, Option.some_inj]
          intro h
          exact hj (h ▸ hk)
        rw [hnil, List.append_nil]
        exact hbody
      · have hnil : (List.filter (fun ge => eventStep ge.2 == some i)
            (stepBody t j st tm cur).events) = [] := by
          rw [List.filter_eq_nil_iff]
          intro ge hge
          have := stepBody_events_step ge hge
          simp only [this, beq_iff_eq, Option.some_inj]
          exact fun h => hji h
        rw [hnil, List.nil_append]
        exact ih hrest _ _ _ _

lemma preLoopEvents_eventStep {latest : Option (Nat × CheckpointState)} :
    ∀ ge ∈ preLoopEvents latest, eventStep ge.2 = none := by
  intro ge hge
  simp only [preLoopEvents, List.mem_append, List.mem_cons,
    List.not_mem_nil, or_false] at hge
  rcases hge with rfl | hge
  · rfl
  · split at hge
    · simp only [List.mem_cons, List.not_mem_nil, or_false] at hge
      rcases hge with rfl | rfl | rfl | rfl <;> rfl
    · exact absurd hge (List.not_mem_nil ge)

lemma enum_iter_eq_range' (a b : Nat) : enum_iter a b = List.range' a (b - a) := by
  by_cases h : a < b
  · have hb : b - a = (b - (a + 1)) + 1 := by omega
    rw [enum_iter_unfold, if_pos h, hb, List.range'_succ, enum_iter_eq_range' (a + 1) b]
  · have h0 : b - a = 0 := by omega
    rw [enum_iter_unfold, if_neg h, h0]
    rfl
termination_by b - a
decreasing_by omega

lemma enum_iter_nodup (a b : Nat) : (enum_iter a b).Nodup := by
  rw [enum_iter_eq_range']
  exact List.nodup_range' a (b - a)

lemma stepsOf_nodup (t : Trainer) (latest : Option (Nat × CheckpointState)) :
    (stepsOf t latest).Nodup := by
  unfold stepsOf
  cases t.numTrainSteps
  · exact List.nodup_nil
  · exact enum_iter_nodup _ _

lemma train_impl_trace_filter_step (t : Trainer)
    (latest : Option (Nat × CheckpointState)) (i : Nat) :
    (train_impl t latest).trace.filter (fun ge => eventStep ge.2 == some i) =
      (runSteps t (stepsOf t latest)
        (restoredTriple latest (initialStepOf latest)).1
        (restoredTriple latest (initialStepOf latest)).2.1
        (restoredTriple latest (initialStepOf latest)).2.2 none).events.filter
        (fun ge => eventStep ge.2 == some i) := by
  have hpre : (preLoopEvents latest).filter
      (fun ge => eventStep ge.2 == some i) = [] := by
    rw [List.filter_eq_nil_iff]
    intro ge hge
    simp [preLoopEvents_eventStep ge hge]
  unfold train_impl stepsOf
  cases hn : t.numTrainSteps with
  | none => simp [runSteps, hpre]
  | some n =>
    cases hra : (runSteps t (enum_iter (initialStepOf latest)
        (totalStepsOf n t.stopAfterSteps))
        (restoredTriple latest (initialStepOf latest)).1
        (restoredTriple latest (initialStepOf latest)).2.1
        (restoredTriple latest (initialStepOf latest)).2.2 none).raisedAt with
    | some k => simp [hra, List.filter_append, hpre]
    | none =>
      simp only [hra, List.filter_append, hpre, List.nil_append]
      have hpost1 : ∀ b : Bool,
          (if b then [((Guard.standard : Guard), Event.sentinelTouch)] else []).filter
            (fun ge => eventStep ge.2 == some i) = [] := by
        intro b
        cases b <;> simp [eventStep]
      rw [hpost1]
      simp [eventStep]

lemma stepBody_raised_false {t : Trainer} {i : Nat} {st : TrainState}
    {tm : PerformanceTimer} {cur : Nat}
    (hc : t.checkifyErrorCategories = false) :
    (stepBody t i st tm cur).raised = false := by
  simp [stepBody, hc]

lemma findSome?_batch_evals {gd : Guard} {i j n : Nat} :
    List.findSome? (fun ge => match ge.2 with
      | Event.batchFetch s b => if s == j then some b else none
      | _ => none)
      ((List.range n).map (fun k => (gd, Event.evalDispatch k i))) = none := by
  rw [List.findSome?_eq_none_iff]
  intro x hx
  simp only [List.mem_map, List.mem_range] at hx
  obtain ⟨k, _, rfl⟩ := hx
  rfl

lemma stepBody_fetchedBatch (t : Trainer) (i : Nat) (st : TrainState)
    (tm : PerformanceTimer) (cur : Nat) (j : Nat) :
    fetchedBatch (stepBody t i st tm cur).events j =
      if i = j then some (t.batchAt cur) else none := by
  unfold fetchedBatch stepBody
  cases hs : t.shouldSave i <;>
    cases hm : (!(t.checkifyErrorCategories && t.errorAt i) &&
      ((i % t.logMetricsEvery == 0 || i % t.logSummariesEvery == 0) && t.isLeadHost)) <;>
    cases hh : (!(t.checkifyErrorCategories && t.errorAt i) && t.isLeadHost) <;>
    · simp only [optList, hs, hm, hh, if_true, if_false,
        List.findSome?_append, List.findSome?_cons, List.findSome?_nil,
        findSome?_batch_evals]
      by_cases hij : i = j <;> simp [hij]

lemma runSteps_fetchedBatch {t : Trainer}
    (hc : t.checkifyErrorCategories = false) :
    ∀ (b a : Nat) (st : TrainState) (tm : PerformanceTimer) (c : Nat)
      (x : Option Auxiliaries) (j : Nat),
      fetchedBatch (runSteps t (enum_iter a b) st tm c x).events j =
        (if a ≤ j ∧ j < b then some (t.batchAt (c + (j - a))) else none) := by
  intro b
  intro a
  by_cases hab : a < b
  · intro st tm c x j
    rw [enum_iter_unfold, if_pos hab,
      runSteps_cons_ok (stepBody_raised_false hc)]
    show fetchedBatch (_ ++ _) j = _
    unfold fetchedBatch
    rw [List.findSome?_append]
    have h1 := stepBody_fetchedBatch t a st tm c j
    unfold fetchedBatch at h1
    rw [h1]
    have h2 := runSteps_fetchedBatch hc b (a + 1) (stepBody t a st tm c).state
      (stepBody t a st tm c).timer (stepBody t a st tm c).cursor
      (some (stepBody t a st tm c).aux) j
    unfold fetchedBatch at h2
    have hcur : (stepBody t a st tm c).cursor = c + 1 := rfl
    rw [h2, hcur]
    by_cases haj : a = j
    · subst haj
      simp [Nat.le_refl, hab]
    · rw [if_neg haj]
      by_cases hrange : a + 1 ≤ j ∧ j < b
      · rw [if_pos hrange, if_pos (by omega)]
        have harith : c + 1 + (j - (a + 1)) = c + (j - a) := by omega
        rw [harith]
        rfl
      · rw [if_neg hrange, if_neg (by omega)]
        rfl
  · intro st tm c x j
    rw [enum_iter_unfold, if_neg hab]
    simp only [runSteps, fetchedBatch, List.findSome?_nil]
    rw [if_neg (by omega)]
termination_by b a => b - a
decreasing_by omega

lemma stepBody_ckptSave_payload {t : Trainer} {i : Nat} {st : TrainState}
    {tm : PerformanceTimer} {cur : Nat} {g : Guard} {k : Nat}
    {cs : CheckpointState}
    (h : (g, Event.ckptSave k cs) ∈ (stepBody t i st tm cur).events) :
    k = i ∧ cs = ⟨st, tm, cur⟩ := by
  simp only [stepBody, List.mem_append, mem_optList, List.mem_map,
    List.mem_range, List.mem_cons, List.not_mem_nil, or_false,
    Prod.mk.injEq, Event.ckptSave.injEq] at h
  rcases h with ((((⟨_, _, hk, hcs⟩ | ⟨a, _, _, he⟩) | (h | h | h | h)) |
    ⟨_, _, he⟩) | ⟨_, _, he⟩)
  · exact ⟨hk, hcs⟩
  · exact absurd he (by simp)
  · exact absurd h.2 (by simp)
  · exact absurd h.2 (by simp)
  · exact absurd h.2 (by simp)
  · exact absurd h.2 (by simp)
  · exact absurd he (by simp)
  · exact absurd he (by simp)

lemma runSteps_ckptSave_cursor {t : Trainer}
    (hc : t.checkifyErrorCategories = false) :
    ∀ (b a : Nat) (st : TrainState) (tm : PerformanceTimer) (c : Nat)
      (x : Option Auxiliaries) (g : Guard) (k : Nat) (cs : CheckpointState),
      (g, Event.ckptSave k cs) ∈ (runSteps t (enum_iter a b) st tm c x).events →
        a ≤ k ∧ k < b ∧ cs.iterCursor = c + (k - a) := by
  intro b a
  by_cases hab : a < b
  · intro st tm c x g k cs hmem
    rw [enum_iter_unfold, if_pos hab,
      runSteps_cons_ok (stepBody_raised_false hc)] at hmem
    replace hmem : (g, Event.ckptSave k cs) ∈
        (stepBody t a st tm c).events ++
        (runSteps t (enum_iter (a + 1) b) (stepBody t a st tm c).state
          (stepBody t a st tm c).timer (stepBody t a st tm c).cursor
          (some (stepBody t a st tm c).aux)).events := hmem
    rcases List.mem_append.1 hmem with hmem | hmem
    · obtain ⟨hk, hcs⟩ := stepBody_ckptSave_payload hmem
      subst hk
      refine ⟨Nat.le_refl _, hab, ?_⟩
      rw [hcs]
      simp
    · obtain ⟨h1, h2, h3⟩ := runSteps_ckptSave_cursor hc b (a + 1)
        (stepBody t a st tm c).state (stepBody t a st tm c).timer
        (stepBody t a st tm c).cursor (some (stepBody t a st tm c).aux)
        g k cs hmem
      have hcur : (stepBody t a st tm c).cursor = c + 1 := rfl
      rw [hcur] at h3
      exact ⟨by omega, h2, by omega⟩
  · intro st tm c x g k cs hmem
    rw [enum_iter_unfold, if_neg hab] at hmem
    simp [runSteps] at hmem
termination_by b a => b - a
decreasing_by omega

lemma train_impl_ckptSave_mem {t : Trainer}
    {latest : Option (Nat × CheckpointState)} {g : Guard} {k : Nat}
    {cs : CheckpointState}
    (h : (g, Event.ckptSave k cs) ∈ (train_impl t latest).trace) :
    (g, Event.ckptSave k cs) ∈
      (runSteps t (stepsOf t latest)
        (restoredTriple latest (initialStepOf latest)).1
        (restoredTriple latest (initialStepOf latest)).2.1
        (restoredTriple latest (initialStepOf latest)).2.2 none).events := by
  have hpre : (g, Event.ckptSave k cs) ∉ preLoopEvents latest := by
    intro hmem
    have := preLoopEvents_eventStep _ hmem
    simp [eventStep] at this
  unfold train_impl at h
  unfold stepsOf
  cases hn : t.numTrainSteps with
  | none =>
    rw [hn] at h
    simp only at h
    exact absurd h hpre
  | some n =>
    rw [hn] at h
    simp only at h
    cases hra : (runSteps t (enum_iter (initialStepOf latest)
        (totalStepsOf n t.stopAfterSteps))
        (restoredTriple latest (initialStepOf latest)).1
        (restoredTriple latest (initialStepOf latest)).2.1
        (restoredTriple latest (initialStepOf latest)).2.2 none).raisedAt with
    | some m =>
      rw [hra] at h
      simp only at h
      rcases List.mem_append.1 h with h | h
      · exact absurd h hpre
      · exact h
    | none =>
      rw [hra] at h
      simp only at h
      rcases List.mem_append.1 h with h | h
      · rcases List.mem_append.1 h with h | h
        · rcases List.mem_append.1 h with h | h
          · exact absurd h hpre
          · exact h
        · split at h
          · simp at h
          · simp at h
      · simp at h

/-- C4: resume round trip. If a full fresh run (no prior checkpoint,
checkify disabled so the loop is not interrupted) saved a checkpoint at
step k, then restarting with the checkpointer's latest checkpoint being
that save yields the same fetched batch at every step from k + 1 onward as
the fresh run, because the saved CheckpointState holds the
dataset-iterator cursor as it was before that step's fetch. -/
theorem C4_resume_batch_sequence (t : Trainer) (n : Nat)
    (hn : t.numTrainSteps = some n)
    (hc : t.checkifyErrorCategories = false) (g : Guard) (k : Nat)
    (cs : CheckpointState)
    (hsave : (g, Event.ckptSave k cs) ∈ (train_impl t none).trace)
    (j : Nat) (hj : k + 1 ≤ j) :
    fetchedBatch (train_impl t (some (k, cs))).trace j =
      fetchedBatch (train_impl t none).trace j := by
  have hrun := train_impl_ckptSave_mem hsave
  simp only [stepsOf, hn, initialStepOf, restoredTriple] at hrun
  obtain ⟨-, hk2, hk3⟩ := runSteps_ckptSave_cursor hc _ _ _ _ _ _ _ _ _ hrun
  have hcursor : cs.iterCursor = k := by omega
  have hfb : ∀ (latest : Option (Nat × CheckpointState)) (j : Nat),
      fetchedBatch (train_impl t latest).trace j =
        (if initialStepOf latest ≤ j ∧ j < totalStepsOf n t.stopAfterSteps
         then some (t.batchAt
           ((restoredTriple latest (initialStepOf latest)).2.2 +
             (j - initialStepOf latest)))
         else none) := by
    intro latest j
    have hfil := train_impl_trace_filter_step t latest j
    have hagree : ∀ (tr : List TEvent),
        fetchedBatch tr j =
          fetchedBatch (tr.filter (fun ge => eventStep ge.2 == some j)) j := by
      intro tr
      induction tr with
      | nil => rfl
      | cons hd tl ih =>
        by_cases hp : (eventStep hd.2 == some j) = true
        · rw [List.filter_cons, if_pos hp]
          unfold fetchedBatch
          rw [List.findSome?_cons, List.findSome?_cons]
          cases hfhd : (match hd.2 with
            | Event.batchFetch s b => if s == j then some b else none
            | _ => none) with
          | some b => rfl
          | none => exact ih
        · rw [List.filter_cons, if_neg hp]
          unfold fetchedBatch
          rw [List.findSome?_cons]
          have hfhd : (match hd.2 with
              | Event.batchFetch s b => if s == j then some b else none
              | _ => none) = (none : Option Nat) := by
            cases hh : hd.2
            case batchFetch s bb =>
              simp only
              cases hsb : s == j with
              | true =>
                exfalso
                apply hp
                have hs : s = j := by simpa using hsb
                simp [eventStep, hh, hs]
              | false => rfl
            all_goals rfl
          rw [hfhd]
          exact ih
    rw [hagree, hfil, ← hagree]
    simp only [stepsOf, hn]
    exact runSteps_fetchedBatch hc _ _ _ _ _ _ _
  rw [hfb (some (k, cs)), hfb none]
  simp only [initialStepOf, restoredTriple, hcursor]
  by_cases hjt : j < totalStepsOf n t.stopAfterSteps
  · rw [if_pos ⟨by omega, hjt⟩, if_pos ⟨by omega, hjt⟩]
    congr 2
    omega
  · rw [if_neg (by omega), if_neg (by omega)]

/-- C1: within every executed step `i` of the training loop, the per-step
side effects appear in the trace in the fixed order checkpoint save,
evaluator dispatch, batch fetch (then device put), step execution, timer
update, metrics write, hooks: the sub-trace of step-`i` events is sorted by
that position. Since the save has strictly smaller position than the batch
fetch, the batch fetch happens strictly after the checkpoint save of the
same step. -/
theorem C1_step_effect_order (t : Trainer)
    (latest : Option (Nat × CheckpointState)) (i : Nat) :
    List.Pairwise rankLE
      ((train_impl t latest).trace.filter (fun ge => eventStep ge.2 == some i)) := by
  rw [train_impl_trace_filter_step]
  exact runSteps_filter_step_pairwise i (stepsOf t latest)
    (stepsOf_nodup t latest) _ _ _ none

/-- C2: for initial_step at most num_train_steps, the enumerated step
sequence is exactly the consecutive integers from initial_step to
total_steps - 1, with total_steps = min(num_train_steps + 1,
stop_after_steps) when stop_after_steps is defined and num_train_steps + 1
otherwise; step index num_train_steps itself is included whenever
stop_after_steps does not cut it off. -/
theorem C2_enumerated_steps (t : Trainer)
    (latest : Option (Nat × CheckpointState)) (n : Nat)
    (hn : t.numTrainSteps = some n) (h : initialStepOf latest ≤ n) :
    stepsOf t latest =
      List.range' (initialStepOf latest)
        (totalStepsOf n t.stopAfterSteps - initialStepOf latest) ∧
    totalStepsOf n t.stopAfterSteps =
      (match t.stopAfterSteps with
       | none => n + 1
       | some s => min (n + 1) s) ∧
    (n < totalStepsOf n t.stopAfterSteps → n ∈ stepsOf t latest) := by
  refine ⟨?_, ?_, ?_⟩
  · simp only [stepsOf, hn]
    exact enum_iter_eq_range' _ _
  · rfl
  · intro hlt
    simp only [stepsOf, hn]
    rw [enum_iter_eq_range', List.mem_range']
    exact ⟨n - initialStepOf latest, by omega, by omega⟩

lemma runSteps_no_raise {t : Trainer} (hc : t.checkifyErrorCategories = false) :
    ∀ (steps : List Nat) (st : TrainState) (tm : PerformanceTimer) (cur : Nat)
      (a : Option Auxiliaries),
      (runSteps t steps st tm cur a).raisedAt = none := by
  intro steps
  induction steps with
  | nil => intro st tm cur a; rfl
  | cons j rest ih =>
    intro st tm cur a
    rw [runSteps_cons_ok (stepBody_raised_false hc)]
    exact ih _ _ _ _

lemma stepBody_hasMetricsFor {t : Trainer} {j : Nat} {st : TrainState}
    {tm : PerformanceTimer} {cur : Nat}
    (hc : t.checkifyErrorCategories = false) (i : Nat) :
    hasMetricsFor (stepBody t j st tm cur).events i = true ↔
      (i = j ∧ t.isLeadHost = true ∧
        (j % t.logMetricsEvery = 0 ∨ j % t.logSummariesEvery = 0)) := by
  unfold hasMetricsFor
  rw [List.any_eq_true]
  constructor
  · rintro ⟨x, hxmem, hx⟩
    simp only [stepBody, List.mem_append, mem_optList, List.mem_map,
      List.mem_range, List.mem_cons, List.not_mem_nil, or_false] at hxmem
    rcases hxmem with ((((⟨_, rfl⟩ | ⟨k, _, rfl⟩) | (rfl | rfl | rfl | rfl)) |
      ⟨hcond, rfl⟩) | ⟨_, rfl⟩)
    · simp [isMetricsFor] at hx
    · simp [isMetricsFor] at hx
    · simp [isMetricsFor] at hx
    · simp [isMetricsFor] at hx
    · simp [isMetricsFor] at hx
    · simp [isMetricsFor] at hx
    · have hij : i = j := by
        have : j = i := by simpa [isMetricsFor] using hx
        exact this.symm
      rw [hc] at hcond
      simp only [Bool.false_and, Bool.not_false, Bool.true_and,
        Bool.and_eq_true, Bool.or_eq_true, beq_iff_eq] at hcond
      obtain ⟨hcad, hlead⟩ := hcond
      exact ⟨hij, hlead, hcad⟩
    · simp [isMetricsFor] at hx
  · rintro ⟨rfl, hlead, hcad⟩
    refine ⟨(loopGuard t, Event.writeStepMetrics i (i % t.logSummariesEvery == 0)),
      ?_, ?_⟩
    · simp only [stepBody, List.mem_append, mem_optList]
      refine Or.inl (Or.inr ⟨?_, by trivial⟩)
      rw [hc]
      simp only [Bool.false_and, Bool.not_false, Bool.true_and,
        Bool.and_eq_true, Bool.or_eq_true, beq_iff_eq]
      exact ⟨hcad, hlead⟩
    · simp [isMetricsFor]

lemma runSteps_hasMetricsFor {t : Trainer}
    (hc : t.checkifyErrorCategories = false) :
    ∀ (steps : List Nat) (st : TrainState) (tm : PerformanceTimer) (cur : Nat)
      (a : Option Auxiliaries) (i : Nat),
      hasMetricsFor (runSteps t steps st tm cur a).events i = true ↔
        (i ∈ steps ∧ t.isLeadHost = true ∧
          (i % t.logMetricsEvery = 0 ∨ i % t.logSummariesEvery = 0)) := by
  intro steps
  induction steps with
  | nil =>
    intro st tm cur a i
    simp [runSteps, hasMetricsFor]
  | cons j rest ih =>
    intro st tm cur a i
    rw [runSteps_cons_ok (stepBody_raised_false hc)]
    show hasMetricsFor (_ ++ _) i = true ↔ _
    unfold hasMetricsFor
    rw [List.any_append, Bool.or_eq_true]
    constructor
    · intro h
      rcases h with h | h
      · obtain ⟨hij, hlead, hcad⟩ := (stepBody_hasMetricsFor hc i).1 h
        subst hij
        exact ⟨by simp, hlead, hcad⟩
      · obtain ⟨hmem, hlead, hcad⟩ := (ih _ _ _ _ i).1 h
        exact ⟨by simp [hmem], hlead, hcad⟩
    · intro ⟨hmem, hlead, hcad⟩
      rcases List.mem_cons.1 hmem with rfl | hmem
      · exact Or.inl ((stepBody_hasMetricsFor hc i).2 ⟨rfl, hlead, hcad⟩)
      · exact Or.inr ((ih _ _ _ _ i).2 ⟨hmem, hlead, hcad⟩)

lemma preLoopEvents_no_metrics (latest : Option (Nat × CheckpointState))
    (i : Nat) : hasMetricsFor (preLoopEvents latest) i = false := by
  unfold hasMetricsFor preLoopEvents
  split <;> simp [isMetricsFor]

lemma train_impl_hasMetricsFor (t : Trainer)
    (latest : Option (Nat × CheckpointState)) (n : Nat)
    (hn : t.numTrainSteps = some n) (hc : t.checkifyErrorCategories = false)
    (i : Nat) :
    hasMetricsFor (train_impl t latest).trace i = true ↔
      (i ∈ stepsOf t latest ∧ t.isLeadHost = true ∧
        (i % t.logMetricsEvery = 0 ∨ i % t.logSummariesEvery = 0)) := by
  unfold train_impl
  rw [hn]
  simp only
  rw [runSteps_no_raise hc]
  simp only
  unfold hasMetricsFor
  rw [List.any_append, List.any_append, List.any_append]
  have hpre := preLoopEvents_no_metrics latest i
  unfold hasMetricsFor at hpre
  rw [hpre]
  have hsent : ∀ b : Bool,
      ((if b then [((Guard.standard : Guard), Event.sentinelTouch)] else []).any
        (fun ge => isMetricsFor i ge.2)) = false := by
    intro b
    cases b <;> simp [isMetricsFor]
  rw [hsent]
  have hsync : ([((Guard.allow : Guard), Event.syncBarrier)]).any
      (fun ge => isMetricsFor i ge.2) = false := rfl
  rw [hsync]
  simp only [Bool.or_false, Bool.false_or]
  have hrun := runSteps_hasMetricsFor hc (stepsOf t latest)
    (restoredTriple latest (initialStepOf latest)).1
    (restoredTriple latest (initialStepOf latest)).2.1
    (restoredTriple latest (initialStepOf latest)).2.2 none i
  unfold hasMetricsFor at hrun
  have hsteps : stepsOf t latest =
      enum_iter (initialStepOf latest) (totalStepsOf n t.stopAfterSteps) := by
    simp [stepsOf, hn]
  rw [← hsteps]
  exact hrun

lemma preLoopEvents_no_sentinel_sync {latest : Option (Nat × CheckpointState)} :
    ∀ ge ∈ preLoopEvents latest,
      ge.2 ≠ Event.sentinelTouch ∧ ge.2 ≠ Event.syncBarrier := by
  intro ge hge
  simp only [preLoopEvents, List.mem_append, List.mem_cons,
    List.not_mem_nil, or_false] at hge
  rcases hge with rfl | hge
  · exact ⟨by simp, by simp⟩
  · split at hge
    · simp only [List.mem_cons, List.not_mem_nil, or_false] at hge
      rcases hge with rfl | rfl | rfl | rfl <;> exact ⟨by simp, by simp⟩
    · exact absurd hge (List.not_mem_nil ge)

lemma runSteps_no_sentinel_sync {t : Trainer} {steps : List Nat}
    {st : TrainState} {tm : PerformanceTimer} {cur : Nat}
    {a : Option Auxiliaries} :
    ∀ ge ∈ (runSteps t steps st tm cur a).events,
      ge.2 ≠ Event.sentinelTouch ∧ ge.2 ≠ Event.syncBarrier := by
  intro ge hge
  obtain ⟨i, _, hs⟩ := runSteps_events_step _ _ _ _ _ ge hge
  constructor
  · intro h
    rw [h] at hs
    simp [eventStep] at hs
  · intro h
    rw [h] at hs
    simp [eventStep] at hs

/-- C5 counterexample: with log_metrics_every = 2 and log_summaries_every
= 1, write_step_metrics runs at step 1 although 1 mod 2 is not 0 (the code
writes when either cadence matches), so the claimed "iff i mod m == 0"
fails as stated. -/
theorem C5_cadence_counterexample :
    cadenceTrainer.logMetricsEvery = 2 ∧
    hasMetricsFor (train_impl cadenceTrainer none).trace 1 = true ∧
    ¬ (1 % cadenceTrainer.logMetricsEvery = 0) := by
  refine ⟨rfl, ?_, ?_⟩ <;> decide

/-- C5 amended: in a run that is not interrupted by a checkify error,
write_step_metrics is invoked at step i exactly when i is an executed step,
the process is the lead host, and i mod log_metrics_every = 0 or
i mod log_summaries_every = 0 (both cadences positive, per the spec). -/
theorem C5_logging_cadence (t : Trainer)
    (latest : Option (Nat × CheckpointState)) (n : Nat)
    (hn : t.numTrainSteps = some n) (hc : t.checkifyErrorCategories = false)
    (hm : 0 < t.logMetricsEvery) (hs : 0 < t.logSummariesEvery) (i : Nat) :
    hasMetricsFor (train_impl t latest).trace i = true ↔
      (i ∈ stepsOf t latest ∧ t.isLeadHost = true ∧
        (i % t.logMetricsEvery = 0 ∨ i % t.logSummariesEvery = 0)) :=
  train_impl_hasMetricsFor t latest n hn hc i

/-- Witness for C5: the amended cadence law evaluated on the concrete
cadence trainer at step 1. -/
theorem C5_logging_cadence_witness :
    cadenceTrainer.numTrainSteps = some 2 ∧
    cadenceTrainer.checkifyErrorCategories = false ∧
    0 < cadenceTrainer.logMetricsEvery ∧
    0 < cadenceTrainer.logSummariesEvery ∧
    (hasMetricsFor (train_impl cadenceTrainer none).trace 1 = true ↔
      (1 ∈ stepsOf cadenceTrainer none ∧ cadenceTrainer.isLeadHost = true ∧
        (1 % cadenceTrainer.logMetricsEvery = 0 ∨
          1 % cadenceTrainer.logSummariesEvery = 0))) :=
  ⟨rfl, rfl, by decide, by decide,
    C5_logging_cadence cadenceTrainer none 2 rfl rfl (by decide) (by decide) 1⟩

/-- C7 counterexample: with num_train_steps = 10 and stop_after_steps = 3
(early cutoff) and an existing workdir, the TRAIN_COMPLETE sentinel IS
written: the code touches it on every normal loop exit, contradicting the
claim that no sentinel is written when stop_after_steps < num_train_steps. -/
theorem C7_early_stop_counterexample :
    earlyStopTrainer.stopAfterSteps = some 3 ∧
    earlyStopTrainer.numTrainSteps = some 10 ∧ (3 : Nat) < 10 ∧
    earlyStopTrainer.workdirExists = true ∧
    hasSentinel (train_impl earlyStopTrainer none).trace = true := by
  refine ⟨rfl, rfl, by decide, rfl, ?_⟩
  decide

/-- C7 amended: when the loop terminates early because
stop_after_steps < num_train_steps (and is not interrupted by a checkify
error), the completion sentinel IS written whenever the working directory
exists, exactly as on full completion. -/
theorem C7_early_stop_sentinel (t : Trainer)
    (latest : Option (Nat × CheckpointState)) (n s : Nat)
    (hn : t.numTrainSteps = some n) (hstop : t.stopAfterSteps = some s)
    (hlt : s < n) (hc : t.checkifyErrorCategories = false)
    (hw : t.workdirExists = true) :
    hasSentinel (train_impl t latest).trace = true := by
  unfold train_impl
  rw [hn]
  simp only
  rw [runSteps_no_raise hc]
  simp only
  unfold hasSentinel
  rw [hw]
  simp [List.any_append]

/-- Witness for C7: the amended sentinel behavior evaluated on the concrete
early-stop trainer. -/
theorem C7_early_stop_sentinel_witness :
    earlyStopTrainer.numTrainSteps = some 10 ∧
    earlyStopTrainer.stopAfterSteps = some 3 ∧ (3 : Nat) < 10 ∧
    earlyStopTrainer.checkifyErrorCategories = false ∧
    earlyStopTrainer.workdirExists = true ∧
    hasSentinel (train_impl earlyStopTrainer none).trace = true :=
  ⟨rfl, rfl, by decide, rfl, rfl,
    C7_early_stop_sentinel earlyStopTrainer none 10 3 rfl rfl (by decide) rfl rfl⟩

/-- C8: on every non-exceptional loop exit the driver appends, after all
other side effects, the sentinel touch (exactly when the workdir exists)
followed by the sync barrier, and returns the final TrainState and the last
Auxiliaries. -/
theorem C8_exit_sentinel_then_sync (t : Trainer)
    (latest : Option (Nat × CheckpointState)) (n : Nat)
    (hn : t.numTrainSteps = some n) (hc : t.checkifyErrorCategories = false) :
    ∃ body st aux,
      (train_impl t latest).trace =
        body ++
          ((if t.workdirExists then [(Guard.standard, Event.sentinelTouch)]
            else []) ++ [(Guard.allow, Event.syncBarrier)]) ∧
      (∀ ge ∈ body, ge.2 ≠ Event.sentinelTouch ∧ ge.2 ≠ Event.syncBarrier) ∧
      (train_impl t latest).outcome = Outcome.ok st aux := by
  unfold train_impl
  rw [hn]
  simp only
  rw [runSteps_no_raise hc]
  simp only
  refine ⟨preLoopEvents latest ++
    (runSteps t (enum_iter (initialStepOf latest) (totalStepsOf n t.stopAfterSteps))
      (restoredTriple latest (initialStepOf latest)).1
      (restoredTriple latest (initialStepOf latest)).2.1
      (restoredTriple latest (initialStepOf latest)).2.2 none).events,
    _, _, ?_, ?_, rfl⟩
  · simp [List.append_assoc]
  · intro ge hge
    rcases List.mem_append.1 hge with hge | hge
    · exact preLoopEvents_no_sentinel_sync ge hge
    · exact runSteps_no_sentinel_sync ge hge

/-- Witness for C8: the exit shape evaluated on the concrete sample
trainer. -/
theorem C8_exit_sentinel_then_sync_witness :
    sampleTrainer.numTrainSteps = some 3 ∧
    sampleTrainer.checkifyErrorCategories = false ∧
    (∃ body st aux,
      (train_impl sampleTrainer none).trace =
        body ++
          ((if sampleTrainer.workdirExists
            then [(Guard.standard, Event.sentinelTouch)] else []) ++
            [(Guard.allow, Event.syncBarrier)]) ∧
      (∀ ge ∈ body, ge.2 ≠ Event.sentinelTouch ∧ ge.2 ≠ Event.syncBarrier) ∧
      (train_impl sampleTrainer none).outcome = Outcome.ok st aux) :=
  ⟨rfl, rfl, C8_exit_sentinel_then_sync sampleTrainer none 3 rfl rfl⟩

/-- C3 counterexample: with num_train_steps undefined the run fails with
the configuration error, but write_config has already run before the
generator body raises (the generator's num_train_steps check only executes
when the for loop requests its first item), refuting "no metric/config
writes are performed". -/
theorem C3_config_error_counterexample :
    noStepsTrainer.numTrainSteps = none ∧
    (train_impl noStepsTrainer none).outcome = Outcome.configError ∧
    hasWriteConfig (train_impl noStepsTrainer none).trace = true := by
  refine ⟨rfl, by decide, ?_⟩
  decide

/-- C3 amended: when num_train_steps is undefined the run fails with the
configuration error at the first loop-iteration attempt; no checkpoint
save, no sentinel file and no step-metrics write has occurred by then
(although the ckpt.restore call and, when the initial step is 0, the four
fresh-start config writes have already run). -/
theorem C3_config_error_failure (t : Trainer)
    (latest : Option (Nat × CheckpointState))
    (hn : t.numTrainSteps = none) :
    (train_impl t latest).outcome = Outcome.configError ∧
    (train_impl t latest).trace.all
      (fun ge => !forbiddenOnConfigFailure ge) = true := by
  unfold train_impl
  rw [hn]
  simp only
  refine ⟨trivial, ?_⟩
  rw [List.all_eq_true]
  intro ge hge
  simp only [preLoopEvents, List.mem_append, List.mem_cons,
    List.not_mem_nil, or_false] at hge
  rcases hge with rfl | hge
  · rfl
  · split at hge
    · simp only [List.mem_cons, List.not_mem_nil, or_false] at hge
      rcases hge with rfl | rfl | rfl | rfl <;> rfl
    · exact absurd hge (List.not_mem_nil ge)

/-- Witness for C3: the amended failure behavior evaluated on the concrete
trainer without a step budget. -/
theorem C3_config_error_failure_witness :
    noStepsTrainer.numTrainSteps = none ∧
    ((train_impl noStepsTrainer none).outcome = Outcome.configError ∧
     (train_impl noStepsTrainer none).trace.all
       (fun ge => !forbiddenOnConfigFailure ge) = true) :=
  ⟨rfl, C3_config_error_failure noStepsTrainer none rfl⟩

lemma isMetricsFor_eq_false_of_step_ne {k j : Nat} {e : Event}
    (hj : eventStep e = some j) (hne : j ≠ k) : isMetricsFor k e = false := by
  cases e <;> simp [isMetricsFor, eventStep] at hj ⊢
  case writeStepMetrics s ls =>
    omega

lemma stepBody_events_raised {t : Trainer} {i : Nat} {st : TrainState}
    {tm : PerformanceTimer} {cur : Nat}
    (h : (stepBody t i st tm cur).raised = true) :
    (stepBody t i st tm cur).events =
      optList (t.shouldSave i)
        (loopGuard t, Event.ckptSave i ⟨st, tm, cur⟩)
      ++ (List.range t.numEvals).map
          (fun k => (loopGuard t, Event.evalDispatch k i))
      ++ [(loopGuard t, Event.batchFetch i (t.batchAt cur)),
          (loopGuard t, Event.devicePut i),
          (loopGuard t, Event.stepExec i),
          (loopGuard t, Event.timerFinish i)] := by
  have hr : (t.checkifyErrorCategories && t.errorAt i) = true := h
  show optList _ _ ++ _ ++ _ ++
      optList (!(t.checkifyErrorCategories && t.errorAt i) && _) _ ++
      optList (!(t.checkifyErrorCategories && t.errorAt i) && _) _ = _
  rw [hr]
  simp [optList]

lemma stepBody_hasMetricsFor_ne {t : Trainer} {i j : Nat} {st : TrainState}
    {tm : PerformanceTimer} {cur : Nat} (hne : j ≠ i) :
    hasMetricsFor (stepBody t j st tm cur).events i = false := by
  unfold hasMetricsFor
  rw [List.any_eq_false]
  intro ge hge
  have hs := stepBody_events_step ge hge
  simp [isMetricsFor_eq_false_of_step_ne hs hne]

lemma runSteps_raised_shape {t : Trainer} :
    ∀ (b a : Nat) (st : TrainState) (tm : PerformanceTimer) (cur : Nat)
      (x : Option Auxiliaries) (k : Nat),
      (runSteps t (enum_iter a b) st tm cur x).raisedAt = some k →
      a ≤ k ∧ k < b ∧ t.checkifyErrorCategories = true ∧ t.errorAt k = true ∧
      (∃ pre, (runSteps t (enum_iter a b) st tm cur x).events =
        pre ++ [(loopGuard t, Event.stepExec k),
                (loopGuard t, Event.timerFinish k)]) ∧
      hasMetricsFor (runSteps t (enum_iter a b) st tm cur x).events k = false := by
  intro b a
  by_cases hab : a < b
  · intro st tm cur x k hk
    rw [enum_iter_unfold, if_pos hab] at hk ⊢
    cases hr : (stepBody t a st tm cur).raised with
    | true =>
      rw [runSteps_cons_raised hr] at hk ⊢
      simp only [Option.some_inj] at hk
      subst hk
      have hcats : (t.checkifyErrorCategories && t.errorAt a) = true := hr
      have hcats2 := hcats
      rw [Bool.and_eq_true] at hcats2
      obtain ⟨hcat, herr⟩ := hcats2
      refine ⟨Nat.le_refl _, hab, hcat, herr, ?_, ?_⟩
      · refine ⟨optList (t.shouldSave a)
          (loopGuard t, Event.ckptSave a ⟨st, tm, cur⟩)
          ++ (List.range t.numEvals).map
              (fun j => (loopGuard t, Event.evalDispatch j a))
          ++ [(loopGuard t, Event.batchFetch a (t.batchAt cur)),
              (loopGuard t, Event.devicePut a)], ?_⟩
        rw [stepBody_events_raised hr]
        simp [List.append_assoc]
      · unfold hasMetricsFor
        rw [List.any_eq_false]
        intro ge hge
        rw [stepBody_events_raised hr] at hge
        simp only [List.mem_append, mem_optList, List.mem_map,
          List.mem_range, List.mem_cons, List.not_mem_nil, or_false] at hge
        rcases hge with ((⟨_, rfl⟩ | ⟨m, _, rfl⟩) |
          (rfl | rfl | rfl | rfl)) <;> simp [isMetricsFor]
    | false =>
      rw [runSteps_cons_ok hr] at hk ⊢
      simp only at hk
      obtain ⟨h1, h2, h3, h4, ⟨pre, hpre⟩, h6⟩ :=
        runSteps_raised_shape b (a + 1) (stepBody t a st tm cur).state
          (stepBody t a st tm cur).timer (stepBody t a st tm cur).cursor
          (some (stepBody t a st tm cur).aux) k hk
      refine ⟨by omega, h2, h3, h4, ?_, ?_⟩
      · refine ⟨(stepBody t a st tm cur).events ++ pre, ?_⟩
        show (stepBody t a st tm cur).events ++ _ = _
        rw [hpre, List.append_assoc]
      · show hasMetricsFor ((stepBody t a st tm cur).events ++ _) k = false
        unfold hasMetricsFor
        rw [List.any_append]
        have hblock : hasMetricsFor (stepBody t a st tm cur).events k = false :=
          stepBody_hasMetricsFor_ne (by omega)
        unfold hasMetricsFor at hblock h6
        rw [hblock, h6]
        rfl
  · intro st tm cur x k hk
    rw [enum_iter_unfold, if_neg hab] at hk
    simp [runSteps] at hk
termination_by b a => b - a
decreasing_by omega

/-- C6 counterexample: checkify error tracking is on and the step
execution reports an error at step 5; the driver raises before the metric
write, so although the metrics cadence matched (5 mod 1 = 0, lead host),
no write_step_metrics for step 5 is in the trace - refuting the claim that
the step-5 metric write ran before the fatal raise. -/
theorem C6_checkify_counterexample :
    checkifyTrainer.checkifyErrorCategories = true ∧
    (train_impl checkifyTrainer none).outcome = Outcome.checkifyError 5 ∧
    5 % checkifyTrainer.logMetricsEvery = 0 ∧
    checkifyTrainer.isLeadHost = true ∧
    hasMetricsFor (train_impl checkifyTrainer none).trace 5 = false := by
  refine ⟨rfl, by decide, by decide, rfl, ?_⟩
  decide

/-- C6 amended: when the run ends with the checkify raise at step k, the
raise came from an enabled error category at k, the trace ends immediately
after step k's state update and timer update (so both are committed and
nothing later ran), the step-k metric write was skipped even when its
cadence matched, and no completion sentinel was written. -/
theorem C6_checkify_raise_after_commit (t : Trainer)
    (latest : Option (Nat × CheckpointState)) (k : Nat)
    (h : (train_impl t latest).outcome = Outcome.checkifyError k) :
    t.checkifyErrorCategories = true ∧ t.errorAt k = true ∧
    (∃ pre, (train_impl t latest).trace =
      pre ++ [(loopGuard t, Event.stepExec k),
              (loopGuard t, Event.timerFinish k)]) ∧
    hasMetricsFor (train_impl t latest).trace k = false ∧
    hasSentinel (train_impl t latest).trace = false := by
  unfold train_impl at h ⊢
  cases hn : t.numTrainSteps with
  | none =>
    rw [hn] at h
    simp only at h
    exact absurd h (by simp)
  | some n =>
    rw [hn] at h
    simp only at h ⊢
    cases hra : (runSteps t (enum_iter (initialStepOf latest)
        (totalStepsOf n t.stopAfterSteps))
        (restoredTriple latest (initialStepOf latest)).1
        (restoredTriple latest (initialStepOf latest)).2.1
        (restoredTriple latest (initialStepOf latest)).2.2 none).raisedAt with
    | none =>
      rw [hra] at h
      simp only at h
      exact absurd h (by simp)
    | some m =>
      rw [hra] at h
      simp only at h ⊢
      have hkm : m = k := by
        have := h
        simp only [Outcome.checkifyError.injEq] at this
        exact this
      subst hkm
      obtain ⟨_, _, h3, h4, ⟨pre, hpre⟩, h6⟩ :=
        runSteps_raised_shape _ _ _ _ _ _ _ hra
      refine ⟨h3, h4, ⟨preLoopEvents latest ++ pre, ?_⟩, ?_, ?_⟩
      · rw [hpre, List.append_assoc]
      · unfold hasMetricsFor
        rw [List.any_append]
        have hp := preLoopEvents_no_metrics latest m
        unfold hasMetricsFor at hp h6
        rw [hp, h6]
        rfl
      · unfold hasSentinel
        rw [List.any_append]
        simp only [Bool.or_eq_false_iff]
        constructor
        · rw [List.any_eq_false]
          intro ge hge
          have := (preLoopEvents_no_sentinel_sync ge hge).1
          simp [this]
        · rw [List.any_eq_false]
          intro ge hge
          have := (runSteps_no_sentinel_sync ge hge).1
          simp [this]

/-- Witness for C6: the amended raise behavior evaluated on the concrete
checkify trainer (error at step 5). -/
theorem C6_checkify_raise_after_commit_witness :
    (train_impl checkifyTrainer none).outcome = Outcome.checkifyError 5 ∧
    (checkifyTrainer.checkifyErrorCategories = true ∧
     checkifyTrainer.errorAt 5 = true ∧
     (∃ pre, (train_impl checkifyTrainer none).trace =
       pre ++ [(loopGuard checkifyTrainer, Event.stepExec 5),
               (loopGuard checkifyTrainer, Event.timerFinish 5)]) ∧
     hasMetricsFor (train_impl checkifyTrainer none).trace 5 = false ∧
     hasSentinel (train_impl checkifyTrainer none).trace = false) :=
  ⟨by decide, C6_checkify_raise_after_commit checkifyTrainer none 5 (by decide)⟩

lemma stepBody_guard {t : Trainer} {i : Nat} {st : TrainState}
    {tm : PerformanceTimer} {cur : Nat} :
    ∀ ge ∈ (stepBody t i st tm cur).events, ge.1 = loopGuard t := by
  intro ge hge
  simp only [stepBody, List.mem_append, mem_optList, List.mem_map,
    List.mem_range, List.mem_cons, List.not_mem_nil, or_false] at hge
  rcases hge with ((((⟨_, rfl⟩ | ⟨k, _, rfl⟩) | (rfl | rfl | rfl | rfl)) |
    ⟨_, rfl⟩) | ⟨_, rfl⟩) <;> rfl

lemma runSteps_guard {t : Trainer} :
    ∀ (steps : List Nat) (st : TrainState) (tm : PerformanceTimer) (cur : Nat)
      (a : Option Auxiliaries),
      ∀ ge ∈ (runSteps t steps st tm cur a).events, ge.1 = loopGuard t := by
  intro steps
  induction steps with
  | nil => intro st tm cur a ge hge; simp [runSteps] at hge
  | cons j rest ih =>
    intro st tm cur a ge hge
    cases hr : (stepBody t j st tm cur).raised
    · rw [runSteps_cons_ok hr] at hge
      rcases List.mem_append.1 hge with hge | hge
      · exact stepBody_guard ge hge
      · exact ih _ _ _ _ ge hge
    · rw [runSteps_cons_raised hr] at hge
      exact stepBody_guard ge hge

/-- C9 counterexample: when jax_disable_jit is set, `_transfer_guard`
installs no guard, so the loop-body batch fetch runs under the standard
policy rather than disallow - refuting the claim for every execution. -/
theorem C9_transfer_guard_counterexample :
    disableJitTrainer.disableJit = true ∧
    (Guard.standard, Event.batchFetch 0 100) ∈
      (train_impl disableJitTrainer none).trace := by
  refine ⟨rfl, ?_⟩
  decide

/-- C9 amended: whenever jax_disable_jit is not set, every per-step
(loop-body) side effect in the trace runs under the disallow transfer
guard, and the allow policy appears only on the final sync barrier. -/
theorem C9_transfer_guard_active (t : Trainer)
    (latest : Option (Nat × CheckpointState)) (hj : t.disableJit = false) :
    (train_impl t latest).trace.all guardInvariant = true := by
  have hlg : loopGuard t = Guard.disallow := by simp [loopGuard, hj]
  have hdis : ∀ e : Event, guardInvariant (Guard.disallow, e) = true := by
    intro e
    unfold guardInvariant
    cases he : eventStep e <;> simp [he]
  have hstd : ∀ e : Event, eventStep e = none →
      guardInvariant (Guard.standard, e) = true := by
    intro e he
    unfold guardInvariant
    simp [he]
  have hpre : ∀ ge ∈ preLoopEvents latest, guardInvariant ge = true := by
    intro ge hge
    simp only [preLoopEvents, List.mem_append, List.mem_cons,
      List.not_mem_nil, or_false] at hge
    rcases hge with rfl | hge
    · exact hstd _ rfl
    · split at hge
      · simp only [List.mem_cons, List.not_mem_nil, or_false] at hge
        rcases hge with rfl | rfl | rfl | rfl <;> exact hstd _ rfl
      · exact absurd hge (List.not_mem_nil ge)
  have hrun : ∀ (steps : List Nat) (st : TrainState) (tm : PerformanceTimer)
      (cur : Nat) (a : Option Auxiliaries),
      ∀ ge ∈ (runSteps t steps st tm cur a).events, guardInvariant ge = true := by
    intro steps st tm cur a ge hge
    have hg := runSteps_guard steps st tm cur a ge hge
    obtain ⟨g, e⟩ := ge
    simp only at hg
    rw [hg, hlg]
    exact hdis e
  rw [List.all_eq_true]
  intro ge hge
  unfold train_impl at hge
  cases hn : t.numTrainSteps with
  | none =>
    rw [hn] at hge
    simp only at hge
    exact hpre ge hge
  | some n =>
    rw [hn] at hge
    simp only at hge
    cases hra : (runSteps t (enum_iter (initialStepOf latest)
        (totalStepsOf n t.stopAfterSteps))
        (restoredTriple latest (initialStepOf latest)).1
        (restoredTriple latest (initialStepOf latest)).2.1
        (restoredTriple latest (initialStepOf latest)).2.2 none).raisedAt with
    | some m =>
      rw [hra] at hge
      simp only at hge
      rcases List.mem_append.1 hge with hge | hge
      · exact hpre ge hge
      · exact hrun _ _ _ _ _ ge hge
    | none =>
      rw [hra] at hge
      simp only at hge
      rcases List.mem_append.1 hge with hge | hge
      · rcases List.mem_append.1 hge with hge | hge
        · rcases List.mem_append.1 hge with hge | hge
          · exact hpre ge hge
          · exact hrun _ _ _ _ _ ge hge
        · split at hge
          · simp only [List.mem_cons, List.not_mem_nil, or_false] at hge
            subst hge
            exact hstd _ rfl
          · exact absurd hge (List.not_mem_nil ge)
      · simp only [List.mem_cons, List.not_mem_nil, or_false] at hge
        subst hge
        rfl

/-- Witness for C9: the amended guard invariant evaluated on the concrete
sample trainer (jit enabled). -/
theorem C9_transfer_guard_active_witness :
    sampleTrainer.disableJit = false ∧
    (train_impl sampleTrainer none).trace.all guardInvariant = true :=
  ⟨rfl, C9_transfer_guard_active sampleTrainer none rfl⟩

lemma runSteps_no_writeConfig {t : Trainer} {steps : List Nat}
    {st : TrainState} {tm : PerformanceTimer} {cur : Nat}
    {a : Option Auxiliaries} :
    ((runSteps t steps st tm cur a).events.any
      (fun ge => ge.2 == Event.writeConfig)) = false := by
  rw [List.any_eq_false]
  intro ge hge
  obtain ⟨i, _, hs⟩ := runSteps_events_step _ _ _ _ _ ge hge
  cases hc : ge.2
  case writeConfig =>
    rw [hc] at hs
    simp [eventStep] at hs
  all_goals simp

lemma train_impl_hasWriteConfig (t : Trainer)
    (latest : Option (Nat × CheckpointState)) :
    hasWriteConfig (train_impl t latest).trace =
      (initialStepOf latest == 0) := by
  have hpre : hasWriteConfig (preLoopEvents latest) =
      (initialStepOf latest == 0) := by
    unfold hasWriteConfig preLoopEvents
    cases h0 : initialStepOf latest == 0 <;> simp [h0]
  have hsent : ∀ b : Bool,
      ((if b then [((Guard.standard : Guard), Event.sentinelTouch)] else []).any
        (fun ge => ge.2 == Event.writeConfig)) = false := by
    intro b
    cases b <;> simp
  have hsync : ([((Guard.allow : Guard), Event.syncBarrier)]).any
      (fun ge => ge.2 == Event.writeConfig) = false := rfl
  unfold train_impl
  cases hn : t.numTrainSteps with
  | none =>
    simp only
    exact hpre
  | some n =>
    simp only
    cases hra : (runSteps t (enum_iter (initialStepOf latest)
        (totalStepsOf n t.stopAfterSteps))
        (restoredTriple latest (initialStepOf latest)).1
        (restoredTriple latest (initialStepOf latest)).2.1
        (restoredTriple latest (initialStepOf latest)).2.2 none).raisedAt with
    | some m =>
      simp only
      unfold hasWriteConfig
      rw [List.any_append]
      unfold hasWriteConfig at hpre
      rw [hpre, runSteps_no_writeConfig, Bool.or_false]
    | none =>
      simp only
      unfold hasWriteConfig
      rw [List.any_append, List.any_append, List.any_append]
      unfold hasWriteConfig at hpre
      rw [hpre, runSteps_no_writeConfig, hsent, hsync, Bool.or_false,
        Bool.or_false, Bool.or_false]

/-- C10 counterexample: when the latest checkpoint is at step 0, a
checkpoint exists yet the fresh-start writer calls are still performed
(the code tests initial_step == 0, not the absence of a checkpoint). -/
theorem C10_ckpt_at_zero_counterexample :
    (some ((0 : Nat), ckptAtZero)).isSome = true ∧
    hasWriteConfig (train_impl sampleTrainer (some (0, ckptAtZero))).trace
      = true := by
  refine ⟨rfl, ?_⟩
  decide

/-- C10 amended: when a checkpoint exists at step k (and k is below the
total-step bound), the resumed loop's first enumerated index is k itself -
the saved step is re-executed, not k + 1 - and the fresh-start writer
calls are performed exactly when the initial step is 0, i.e. also when the
existing checkpoint is at step 0. -/
theorem C10_resume_reexecutes_saved_step (t : Trainer) (n : Nat)
    (hn : t.numTrainSteps = some n) (k : Nat) (cs : CheckpointState)
    (hk : k < totalStepsOf n t.stopAfterSteps) :
    (stepsOf t (some (k, cs))).head? = some k ∧
    (hasWriteConfig (train_impl t (some (k, cs))).trace = true ↔ k = 0) := by
  constructor
  · simp only [stepsOf, hn, initialStepOf]
    rw [enum_iter_unfold, if_pos hk]
    rfl
  · rw [train_impl_hasWriteConfig]
    simp [initialStepOf]

/-- Witness for C10: the amended restart behavior evaluated on the sample
trainer resuming from a checkpoint at step 2. -/
theorem C10_resume_reexecutes_saved_step_witness :
    sampleTrainer.numTrainSteps = some 3 ∧
    2 < totalStepsOf 3 sampleTrainer.stopAfterSteps ∧
    ((stepsOf sampleTrainer (some (2, ckptAtZero))).head? = some 2 ∧
     (hasWriteConfig
        (train_impl sampleTrainer (some (2, ckptAtZero))).trace = true ↔
        2 = 0)) :=
  ⟨rfl, by decide,
    C10_resume_reexecutes_saved_step sampleTrainer 3 rfl 2 ckptAtZero (by decide)⟩

/-- Witness for C2: the enumerated-steps law evaluated on the sample
trainer (initial step 0, num_train_steps 3, no stop_after_steps). -/
theorem C2_enumerated_steps_witness :
    sampleTrainer.numTrainSteps = some 3 ∧ initialStepOf none ≤ 3 ∧
    (stepsOf sampleTrainer none =
      List.range' (initialStepOf none)
        (totalStepsOf 3 sampleTrainer.stopAfterSteps - initialStepOf none) ∧
     totalStepsOf 3 sampleTrainer.stopAfterSteps =
       (match sampleTrainer.stopAfterSteps with
        | none => 3 + 1
        | some s => min (3 + 1) s) ∧
     (3 < totalStepsOf 3 sampleTrainer.stopAfterSteps →
       3 ∈ stepsOf sampleTrainer none)) :=
  ⟨rfl, by decide, C2_enumerated_steps sampleTrainer none 3 rfl (by decide)⟩

/-- Witness for C4: the resume round trip evaluated on the sample trainer,
which saves at step 2; the batch fetched at step 3 after resuming equals
the batch the fresh run fetched at step 3. -/
theorem C4_resume_batch_sequence_witness :
    sampleTrainer.numTrainSteps = some 3 ∧
    sampleTrainer.checkifyErrorCategories = false ∧
    (Guard.disallow, Event.ckptSave 2 ⟨⟨2⟩, ⟨0, 2⟩, 2⟩) ∈
      (train_impl sampleTrainer none).trace ∧
    2 + 1 ≤ 3 ∧
    fetchedBatch
        (train_impl sampleTrainer (some (2, ⟨⟨2⟩, ⟨0, 2⟩, 2⟩))).trace 3 =
      fetchedBatch (train_impl sampleTrainer none).trace 3 :=
  ⟨rfl, rfl, by decide, by decide,
    C4_resume_batch_sequence sampleTrainer 3 rfl rfl Guard.disallow 2
      ⟨⟨2⟩, ⟨0, 2⟩, 2⟩ (by decide) 3 (by decide)⟩

end Kauldron
